import Mathlib

set_option maxRecDepth 4000

/-!
Verification of the shortlinks manager core
(`packages/shortlinks-manager/src/manager.ts` and `src/utils.ts`,
repository potonz/shortlinks-manage-cf-d1).

The TypeScript code is shallowly embedded:
* `Math.random()` draws are an oracle `Nat → Fin 62` (one value per
  character position); the manager's three creation attempts each get
  their own oracle via `Nat → Nat → Fin 62`.
* the backend store is an association list `String × String`
  (the honest map backend used by the repository's tests and the D1
  adapter: `getTargetUrl` is lookup, `checkShortIdsExist` is a filter
  by membership, `createShortLink` inserts a fresh row);
* each cache tier (`ICache`) is an association list; `get` is lookup
  (`null` ↦ `none`), `set` replaces-or-appends;
* JavaScript truthiness of a `string | null` value is `truthyStr`:
  `null` and `""` are falsy;
* every backend/cache invocation the manager performs is recorded in a
  trace of `BEvent` values, so "operation X was never invoked" is a
  statement about the trace.
-/

/-- The fixed alphabet of `src/utils.ts` (`ALLOWED_CHARS`). -/
def ALLOWED_CHARS : String := "0123456789abcdefghijklmnopqrstuvwxyzABCDEFGHIJKLMNOPQRSTUVWXYZ"

/-- `ALLOWED_CHARS.charAt(i)` for an in-range index. -/
def allowedCharAt (i : Nat) : Char := ALLOWED_CHARS.data.getD i ' '

/-- `generateRandomShortId(length)` of `src/utils.ts`: draws `len`
characters from the alphabet, one oracle value per position, starting
at oracle position `start`. -/
def generateRandomShortId (rand : Nat → Fin 62) (start len : Nat) : String :=
  ⟨(List.range len).map (fun i => allowedCharAt (rand (start + i)).val)⟩

/-- Membership test on a list of strings (`Array.includes` / `Set.has`). -/
def memStr (a : String) (l : List String) : Bool :=
  match l with
  | [] => false
  | x :: xs => if x = a then true else memStr a xs

/-- The `while (ids.size < count && loop < count * 100)` loop of
`generateUniqueShortIds`.  `fuel` is the remaining loop budget
(`count * 100 - loop`), `loop` counts iterations so far (each iteration
is one `generateRandomShortId` draw); the `loop`-th draw consumes oracle
positions `loop*len .. loop*len+len-1`.  Returns the collected ids (in
insertion order, deduplicated like a JS `Set`) and the number of draws
performed. -/
def genUniqueAux (rand : Nat → Fin 62) (count len : Nat)
    (ids : List String) (loop fuel : Nat) : List String × Nat :=
  match fuel with
  | 0 => (ids, loop)
  | Nat.succ f =>
    if ids.length < count then
      let id := generateRandomShortId rand (loop * len) len
      genUniqueAux rand count len (if memStr id ids then ids else ids ++ [id]) (loop + 1) f
    else (ids, loop)

/-- `generateUniqueShortIds(count, length)` of `src/utils.ts`. -/
def generateUniqueShortIds (rand : Nat → Fin 62) (count len : Nat) : List String :=
  (genUniqueAux rand count len [] 0 (count * 100)).1

/-- Number of random identifier draws `generateUniqueShortIds` performs. -/
def generateUniqueShortIdsDraws (rand : Nat → Fin 62) (count len : Nat) : Nat :=
  (genUniqueAux rand count len [] 0 (count * 100)).2

/-- Association-list lookup: `Map.get` returning `undefined`/`null` as `none`. -/
def assocGet (l : List (String × String)) (k : String) : Option String :=
  match l with
  | [] => none
  | (k', v) :: rest => if k' = k then some v else assocGet rest k

/-- `Map.set`: replace an existing binding in place, else append. -/
def assocSet (l : List (String × String)) (k v : String) : List (String × String) :=
  match l with
  | [] => [(k, v)]
  | (k', v') :: rest => if k' = k then (k, v) :: rest else (k', v') :: assocSet rest k v

/-- The backend's `checkShortIdsExist`: the sublist of ids that already
exist in the store (`shortIds.filter(id => map.has(id))`). -/
def checkExist (bk : List (String × String)) (ids : List String) : List String :=
  ids.filter (fun id => (assocGet bk id).isSome)

/-- `listToTest.find(id => !existed.includes(id))` followed by the
truthiness test `if (!uniqueShortId)`: the first candidate not in
`existed`, rejected if it is the falsy string `""`. -/
def pickFree (listToTest existed : List String) : Option String :=
  match listToTest with
  | [] => none
  | id :: rest =>
    if memStr id existed then pickFree rest existed
    else if id = "" then none else some id

/-- JavaScript truthiness of a `string | null` value: `null` and `""`
are falsy. -/
def truthyStr (v : Option String) : Bool :=
  match v with
  | none => false
  | some s => !s.isEmpty

/-- One backend or cache invocation performed by the manager. -/
inductive BEvent where
  | checkShortIdsExist (ids : List String)
  | bCreateShortLink (shortId targetUrl : String)
  | bGetTargetUrl (shortId : String)
  | bUpdateLastAccess (shortId : String)
  | lengthUpdated (newLength : Nat)
  | cacheInit (tier : Nat)
  | cacheGet (tier : Nat) (shortId : String)
  | cacheSet (tier : Nat) (shortId targetUrl : String)
deriving DecidableEq, Repr

/-- The manager's observable store: the backend map and the ordered
cache tiers. -/
structure MState where
  backend : List (String × String)
  caches : List (List (String × String))
deriving DecidableEq, Repr

/-- The backend's `createShortLink(shortId, targetUrl)`: insert a new row. -/
def backendCreate (st : MState) (shortId targetUrl : String) : MState :=
  ⟨st.backend ++ [(shortId, targetUrl)], st.caches⟩

/-- Result of the creation attempt loop. -/
structure AttemptsOut where
  found : Option String
  len : Nat
  trace : List BEvent
deriving DecidableEq, Repr

/-- The `for (let i = 0; i < 3; i++)` loop of `createShortLink`
(manager.ts lines 91-106): generate a batch of 50 candidates at the
current length, ask the backend which exist, adopt the first free
(truthy) one; otherwise increment the length, fire
`onShortIdLengthUpdated` with the new value, and retry. -/
def createAttempts (rand : Nat → Nat → Fin 62) (bk : List (String × String))
    (len i fuel : Nat) : AttemptsOut :=
  match fuel with
  | 0 => ⟨none, len, []⟩
  | Nat.succ f =>
    let listToTest := generateUniqueShortIds (rand i) 50 len
    let existed := checkExist bk listToTest
    match pickFree listToTest existed with
    | some id => ⟨some id, len, [BEvent.checkShortIdsExist listToTest]⟩
    | none =>
      let rest := createAttempts rand bk (len + 1) (i + 1) f
      ⟨rest.found, rest.len,
        BEvent.checkShortIdsExist listToTest :: BEvent.lengthUpdated (len + 1) :: rest.trace⟩

/-- Result of the manager's `createShortLink`. -/
structure CreateOut where
  result : Except Unit String
  finalLen : Nat
  state : MState
  trace : List BEvent
deriving Repr

/-- `createShortLink(targetUrl)` of manager.ts (lines 88-115): run up to
3 attempts; if no id was secured, throw (`Except.error`); otherwise
persist via the backend's `createShortLink` and return the id. -/
def createShortLink (rand : Nat → Nat → Fin 62) (shortIdLength : Nat)
    (targetUrl : String) (st : MState) : CreateOut :=
  let a := createAttempts rand st.backend shortIdLength 0 3
  match a.found with
  | none => ⟨Except.error (), a.len, st, a.trace⟩
  | some id =>
    ⟨Except.ok id, a.len, backendCreate st id targetUrl,
      a.trace ++ [BEvent.bCreateShortLink id targetUrl]⟩

/-- Result of the cache scanning loop. -/
structure ScanOut where
  acc : Option String
  trace : List BEvent
deriving DecidableEq, Repr

/-- The `for (const cache of caches)` loop of `getTargetUrl`
(manager.ts lines 120-125): `init` runs on every tier; `get` runs only
while the accumulator is still falsy, and its result (even `null`)
replaces the accumulator. -/
def cacheScan (caches : List (List (String × String))) (idx : Nat)
    (id : String) (acc : Option String) : ScanOut :=
  match caches with
  | [] => ⟨acc, []⟩
  | c :: rest =>
    if truthyStr acc then
      let r := cacheScan rest (idx + 1) id acc
      ⟨r.acc, BEvent.cacheInit idx :: r.trace⟩
    else
      let r := cacheScan rest (idx + 1) id (assocGet c id)
      ⟨r.acc, BEvent.cacheInit idx :: BEvent.cacheGet idx id :: r.trace⟩

/-- Result of the manager's `getTargetUrl`. -/
structure GetOut where
  result : Option String
  state : MState
  trace : List BEvent
deriving Repr

/-- `getTargetUrl(shortId)` of manager.ts (lines 117-140): scan the
cache tiers; if the accumulated value is still falsy, read the backend;
if the final value is truthy, bump the last-access time and write the
value into every cache tier; return the value. -/
def getTargetUrl (st : MState) (id : String) : GetOut :=
  let s := cacheScan st.caches 0 id none
  let t2 := if truthyStr s.acc then s.acc else assocGet st.backend id
  let tr2 := if truthyStr s.acc then s.trace else s.trace ++ [BEvent.bGetTargetUrl id]
  if truthyStr t2 then
    ⟨t2, ⟨st.backend, st.caches.map (fun c => assocSet c id (t2.getD ""))⟩,
      tr2 ++ BEvent.bUpdateLastAccess id ::
        (List.range st.caches.length).map (fun i => BEvent.cacheSet i id (t2.getD ""))⟩
  else ⟨t2, st, tr2⟩

/-- The value `getTargetUrl` resolves (the `targetUrl` local after
lines 120-129): the cache-scan accumulator if truthy, else the
backend's answer. -/
def getResolved (st : MState) (id : String) : Option String :=
  if truthyStr (cacheScan st.caches 0 id none).acc
  then (cacheScan st.caches 0 id none).acc
  else assocGet st.backend id

/-- The trace `getTargetUrl` has produced up to line 129: the cache
scan, plus the backend read when the scan stayed falsy. -/
def getTraceA (st : MState) (id : String) : List BEvent :=
  if truthyStr (cacheScan st.caches 0 id none).acc
  then (cacheScan st.caches 0 id none).trace
  else (cacheScan st.caches 0 id none).trace ++ [BEvent.bGetTargetUrl id]

/-- `updateShortLinkLastAccessTime(shortId)` of manager.ts (lines
142-144): the interface (lines 68-74) declares a `time` parameter, but
the implementation delegates to the backend with the shortId alone. -/
def updateShortLinkLastAccessTime (shortId : String) (time : Nat) (st : MState) :
    MState × List BEvent :=
  (st, [BEvent.bUpdateLastAccess shortId])

/-! ### Concrete inputs used by witnesses and counterexamples -/

/-- Oracle whose attempt-`i` stream yields, at length `i + 1`, the
candidates `"0"`, `"11"`-style strings: candidate `j` repeats the
alphabet character of index `j`. -/
def randW : Nat → Nat → Fin 62 :=
  fun i p => ⟨(p / (i + 1)) % 62, Nat.mod_lt _ (by omega)⟩

/-- Oracle for length-3 batches: candidate `j` is the character of
index `j` repeated three times (`"000"`, `"111"`, ...). -/
def randD : Nat → Nat → Fin 62 :=
  fun _ p => ⟨(p / 3) % 62, Nat.mod_lt _ (by omega)⟩

/-- The constant-zero oracle: every draw is the character `'0'`. -/
def randC : Nat → Fin 62 := fun _ => ⟨0, by omega⟩

/-- A backend holding every candidate `randW` can produce at lengths 1,
2 and 3: the namespace is saturated for three attempts. -/
def bkSat : List (String × String) :=
  (((List.range 3).map (fun i =>
    (List.range 50).map (fun j =>
      (String.mk (List.replicate (i + 1) (allowedCharAt j)), "u")))).flatten)

/-- A backend holding every length-1 candidate of `randW`'s first
attempt: saturated at length 1 only. -/
def bkSat1 : List (String × String) :=
  (List.range 50).map (fun j => (String.mk [allowedCharAt j], "u"))

/-- Saturated store, no caches. -/
def stSat : MState := ⟨bkSat, []⟩

/-- Length-1-saturated store, no caches. -/
def stSat1 : MState := ⟨bkSat1, []⟩

/-- Empty backend with one (empty) configured cache tier. -/
def stEmpty1 : MState := ⟨[], [[]]⟩

/-- Backend holding one link, no caches. -/
def stC2 : MState := ⟨[("abc", "https://example.com/test")], []⟩

/-- Two cache tiers: the first holds the empty string for `"x"`, the
second holds `"u"`; the backend is empty. -/
def stCex : MState := ⟨[], [[("x", "")], [("x", "u")]]⟩

/-- Two cache tiers both holding a value for `"x"`. -/
def stW4 : MState := ⟨[], [[("x", "u")], [("x", "w")]]⟩

/-- Backend and single cache tier both holding the empty string for `"e"`. -/
def stC10 : MState := ⟨[("e", "")], [[("e", "")]]⟩

/-! ### Unfolding equations -/

theorem genUniqueAux_succ (rand : Nat → Fin 62) (count len : Nat)
    (ids : List String) (loop f : Nat) :
    genUniqueAux rand count len ids loop (f + 1) =
      if ids.length < count then
        genUniqueAux rand count len
          (if memStr (generateRandomShortId rand (loop * len) len) ids then ids
           else ids ++ [generateRandomShortId rand (loop * len) len]) (loop + 1) f
      else (ids, loop) := rfl

theorem createAttempts_succ (rand : Nat → Nat → Fin 62) (bk : List (String × String))
    (len i f : Nat) :
    createAttempts rand bk len i (f + 1) =
      match pickFree (generateUniqueShortIds (rand i) 50 len)
          (checkExist bk (generateUniqueShortIds (rand i) 50 len)) with
      | some id => ⟨some id, len,
          [BEvent.checkShortIdsExist (generateUniqueShortIds (rand i) 50 len)]⟩
      | none =>
          ⟨(createAttempts rand bk (len + 1) (i + 1) f).found,
           (createAttempts rand bk (len + 1) (i + 1) f).len,
           BEvent.checkShortIdsExist (generateUniqueShortIds (rand i) 50 len) ::
             BEvent.lengthUpdated (len + 1) ::
               (createAttempts rand bk (len + 1) (i + 1) f).trace⟩ := rfl

theorem createShortLink_eq (rand : Nat → Nat → Fin 62) (shortIdLength : Nat)
    (targetUrl : String) (st : MState) :
    createShortLink rand shortIdLength targetUrl st =
      match (createAttempts rand st.backend shortIdLength 0 3).found with
      | none => ⟨Except.error (), (createAttempts rand st.backend shortIdLength 0 3).len,
          st, (createAttempts rand st.backend shortIdLength 0 3).trace⟩
      | some id =>
          ⟨Except.ok id, (createAttempts rand st.backend shortIdLength 0 3).len,
           backendCreate st id targetUrl,
           (createAttempts rand st.backend shortIdLength 0 3).trace ++
             [BEvent.bCreateShortLink id targetUrl]⟩ := rfl

theorem cacheScan_cons (c : List (String × String))
    (rest : List (List (String × String))) (idx : Nat) (id : String)
    (acc : Option String) :
    cacheScan (c :: rest) idx id acc =
      if truthyStr acc then
        ⟨(cacheScan rest (idx + 1) id acc).acc,
         BEvent.cacheInit idx :: (cacheScan rest (idx + 1) id acc).trace⟩
      else
        ⟨(cacheScan rest (idx + 1) id (assocGet c id)).acc,
         BEvent.cacheInit idx :: BEvent.cacheGet idx id ::
           (cacheScan rest (idx + 1) id (assocGet c id)).trace⟩ := rfl

theorem getTargetUrl_eq (st : MState) (id : String) :
    getTargetUrl st id =
      (if truthyStr (if truthyStr (cacheScan st.caches 0 id none).acc
            then (cacheScan st.caches 0 id none).acc
            else assocGet st.backend id) then
        ⟨(if truthyStr (cacheScan st.caches 0 id none).acc
            then (cacheScan st.caches 0 id none).acc
            else assocGet st.backend id),
         ⟨st.backend, st.caches.map (fun c => assocSet c id
            ((if truthyStr (cacheScan st.caches 0 id none).acc
                then (cacheScan st.caches 0 id none).acc
                else assocGet st.backend id).getD ""))⟩,
         (if truthyStr (cacheScan st.caches 0 id none).acc
            then (cacheScan st.caches 0 id none).trace
            else (cacheScan st.caches 0 id none).trace ++ [BEvent.bGetTargetUrl id]) ++
           BEvent.bUpdateLastAccess id ::
             (List.range st.caches.length).map (fun i => BEvent.cacheSet i id
               ((if truthyStr (cacheScan st.caches 0 id none).acc
                   then (cacheScan st.caches 0 id none).acc
                   else assocGet st.backend id).getD ""))⟩
      else
        ⟨(if truthyStr (cacheScan st.caches 0 id none).acc
            then (cacheScan st.caches 0 id none).acc
            else assocGet st.backend id), st,
         (if truthyStr (cacheScan st.caches 0 id none).acc
            then (cacheScan st.caches 0 id none).trace
            else (cacheScan st.caches 0 id none).trace ++ [BEvent.bGetTargetUrl id])⟩) := rfl

/-! ### Basic lemmas about the embedded primitives -/

theorem memStr_eq_true_iff (a : String) (l : List String) :
    memStr a l = true ↔ a ∈ l := by
  induction l with
  | nil => simp [memStr]
  | cons x xs ih =>
    simp only [memStr]
    by_cases h : x = a
    · subst h
      simp
    · rw [if_neg h, ih]
      constructor
      · exact fun hx => List.mem_cons_of_mem _ hx
      · intro hx
        rcases List.mem_cons.mp hx with h' | h'
        · exact absurd h'.symm h
        · exact h'

theorem memStr_eq_false_iff (a : String) (l : List String) :
    memStr a l = false ↔ a ∉ l := by
  constructor
  · intro h ha
    rw [← memStr_eq_true_iff] at ha
    rw [h] at ha
    cases ha
  · intro ha
    cases hm : memStr a l with
    | false => rfl
    | true => exact absurd ((memStr_eq_true_iff a l).mp hm) ha

theorem assocGet_append_fresh (l : List (String × String)) (k v : String)
    (h : assocGet l k = none) : assocGet (l ++ [(k, v)]) k = some v := by
  induction l with
  | nil => simp [assocGet]
  | cons p rest ih =>
    obtain ⟨k', v'⟩ := p
    by_cases hk : k' = k
    · simp [assocGet, hk] at h
    · simp only [assocGet, hk, if_false, List.cons_append] at h ⊢
      exact ih h

theorem allowedCharAt_mem_alphabet :
    ∀ v : Fin 62, allowedCharAt v.val ∈ ALLOWED_CHARS.data := by decide

theorem generateRandomShortId_length (rand : Nat → Fin 62) (start len : Nat) :
    (generateRandomShortId rand start len).length = len := by
  show ((List.range len).map _).length = len
  simp

theorem generateRandomShortId_chars (rand : Nat → Fin 62) (start len : Nat)
    (ch : Char) (h : ch ∈ (generateRandomShortId rand start len).data) :
    ch ∈ ALLOWED_CHARS.data := by
  have h' : ch ∈ (List.range len).map (fun i => allowedCharAt (rand (start + i)).val) := h
  rw [List.mem_map] at h'
  obtain ⟨i, _, rfl⟩ := h'
  exact allowedCharAt_mem_alphabet (rand (start + i))

theorem genUniqueAux_invariant (rand : Nat → Fin 62) (count len : Nat) :
    ∀ (fuel : Nat) (ids : List String) (loop : Nat),
    ids.Nodup →
    (∀ s ∈ ids, s.length = len ∧ ∀ ch ∈ s.data, ch ∈ ALLOWED_CHARS.data) →
    ids.length ≤ count →
    (genUniqueAux rand count len ids loop fuel).1.Nodup ∧
    (∀ s ∈ (genUniqueAux rand count len ids loop fuel).1,
      s.length = len ∧ ∀ ch ∈ s.data, ch ∈ ALLOWED_CHARS.data) ∧
    (genUniqueAux rand count len ids loop fuel).1.length ≤ count ∧
    (genUniqueAux rand count len ids loop fuel).2 ≤ loop + fuel := by
  intro fuel
  induction fuel with
  | zero =>
    intro ids loop h1 h2 h3
    exact ⟨h1, h2, h3, Nat.le_refl _⟩
  | succ f ih =>
    intro ids loop h1 h2 h3
    rw [genUniqueAux_succ]
    by_cases hlt : ids.length < count
    · rw [if_pos hlt]
      by_cases hmem : memStr (generateRandomShortId rand (loop * len) len) ids = true
      · rw [if_pos hmem]
        have h := ih ids (loop + 1) h1 h2 h3
        exact ⟨h.1, h.2.1, h.2.2.1, by omega⟩
      · rw [if_neg hmem]
        have hnotmem : generateRandomShortId rand (loop * len) len ∉ ids := by
          rw [← memStr_eq_false_iff]
          exact Bool.eq_false_iff.mpr hmem
        have h1' : (ids ++ [generateRandomShortId rand (loop * len) len]).Nodup := by
          refine List.Nodup.append h1 (List.nodup_singleton _) ?_
          intro a ha hb
          rw [List.mem_singleton] at hb
          subst hb
          exact hnotmem ha
        have h2' : ∀ s ∈ ids ++ [generateRandomShortId rand (loop * len) len],
            s.length = len ∧ ∀ ch ∈ s.data, ch ∈ ALLOWED_CHARS.data := by
          intro s hs
          rw [List.mem_append] at hs
          rcases hs with hs | hs
          · exact h2 s hs
          · rw [List.mem_singleton] at hs
            subst hs
            exact ⟨generateRandomShortId_length rand _ len,
              fun ch hch => generateRandomShortId_chars rand _ len ch hch⟩
        have h3' : (ids ++ [generateRandomShortId rand (loop * len) len]).length ≤ count := by
          rw [List.length_append, List.length_singleton]
          omega
        have h := ih (ids ++ [generateRandomShortId rand (loop * len) len]) (loop + 1) h1' h2' h3'
        exact ⟨h.1, h.2.1, h.2.2.1, by omega⟩
    · rw [if_neg hlt]
      exact ⟨h1, h2, h3, by omega⟩

/-- Claim C7: for every `count ≥ 0` and `length ≥ 1`,
`generateUniqueShortIds(count, length)` returns pairwise-distinct
strings, each of exactly `length` characters drawn from the fixed
62-character alphanumeric alphabet (digits 0-9, lowercase a-z,
uppercase A-Z), contains at most `count` elements, performs at most
`count * 100` random draws, and may return fewer than `count`
elements. -/
theorem generateUniqueShortIds_spec :
    (∀ (rand : Nat → Fin 62) (count len : Nat), 1 ≤ len →
      (generateUniqueShortIds rand count len).Nodup ∧
      (∀ s ∈ generateUniqueShortIds rand count len,
        s.length = len ∧ ∀ ch ∈ s.data, ch ∈ ALLOWED_CHARS.data) ∧
      (generateUniqueShortIds rand count len).length ≤ count ∧
      generateUniqueShortIdsDraws rand count len ≤ count * 100) ∧
    ALLOWED_CHARS.length = 62 ∧
    (∀ ch ∈ ALLOWED_CHARS.data, ch.isDigit ∨ ch.isLower ∨ ch.isUpper) ∧
    (∃ (rand : Nat → Fin 62) (count len : Nat),
      1 ≤ len ∧ (generateUniqueShortIds rand count len).length < count) := by
  refine ⟨?_, by decide, by decide, ?_⟩
  · intro rand count len _
    have h := genUniqueAux_invariant rand count len (count * 100) [] 0
      List.nodup_nil (by intro s hs; cases hs) (Nat.zero_le count)
    refine ⟨h.1, h.2.1, h.2.2.1, ?_⟩
    have := h.2.2.2
    simpa [generateUniqueShortIdsDraws] using this
  · exact ⟨randC, 2, 1, Nat.le_refl 1, by decide⟩

/-- Witness for C7 at a concrete oracle: the result for `count = 1`,
`len = 1` is duplicate-free. -/
theorem generateUniqueShortIds_spec_witness :
    (generateUniqueShortIds randC 1 1).Nodup :=
  (generateUniqueShortIds_spec.1 randC 1 1 (by decide)).1

theorem generateUniqueShortIds_mem_length (rand : Nat → Fin 62) (count len : Nat)
    (s : String) (hs : s ∈ generateUniqueShortIds rand count len) : s.length = len :=
  ((genUniqueAux_invariant rand count len (count * 100) [] 0 List.nodup_nil
    (by intro s hs; cases hs) (Nat.zero_le count)).2.1 s hs).1

theorem pickFree_eq_none (l ex : List String) (h : ∀ a ∈ l, memStr a ex = true) :
    pickFree l ex = none := by
  induction l with
  | nil => rfl
  | cons x rest ih =>
    show pickFree (x :: rest) ex = none
    rw [pickFree, if_pos (h x (List.mem_cons_self x rest))]
    exact ih (fun a ha => h a (List.mem_cons_of_mem x ha))

theorem pickFree_sound (l ex : List String) (id : String)
    (h : pickFree l ex = some id) : id ∈ l ∧ memStr id ex = false ∧ id ≠ "" := by
  induction l with
  | nil => cases h
  | cons x rest ih =>
    rw [pickFree] at h
    by_cases hm : memStr x ex = true
    · rw [if_pos hm] at h
      obtain ⟨h1, h2, h3⟩ := ih h
      exact ⟨List.mem_cons_of_mem x h1, h2, h3⟩
    · rw [if_neg hm] at h
      by_cases he : x = ""
      · rw [if_pos he] at h
        cases h
      · rw [if_neg he] at h
        injection h with h
        subst h
        exact ⟨List.mem_cons_self x rest, Bool.eq_false_iff.mpr hm, he⟩

theorem checkExist_mem_of (bk : List (String × String)) (l : List String)
    (a : String) (ha : a ∈ l) (hs : (assocGet bk a).isSome = true) :
    memStr a (checkExist bk l) = true :=
  (memStr_eq_true_iff a _).mpr (List.mem_filter.mpr ⟨ha, hs⟩)

theorem assocGet_none_of_not_in_checkExist (bk : List (String × String))
    (l : List String) (a : String) (ha : a ∈ l)
    (hn : memStr a (checkExist bk l) = false) : assocGet bk a = none := by
  rw [memStr_eq_false_iff] at hn
  cases hg : assocGet bk a with
  | none => rfl
  | some v =>
    exfalso
    exact hn (List.mem_filter.mpr ⟨ha, by rw [hg]; rfl⟩)

theorem createAttempts_none (rand : Nat → Nat → Fin 62) (bk : List (String × String)) :
    ∀ (fuel len i : Nat),
    (∀ j, j < fuel → ∀ id ∈ generateUniqueShortIds (rand (i + j)) 50 (len + j),
      (assocGet bk id).isSome = true) →
    (createAttempts rand bk len i fuel).found = none := by
  intro fuel
  induction fuel with
  | zero => intro len i _; rfl
  | succ f ih =>
    intro len i h
    have h0 : ∀ id ∈ generateUniqueShortIds (rand i) 50 len,
        (assocGet bk id).isSome = true := by
      have := h 0 (Nat.succ_pos f)
      simpa using this
    have hp : pickFree (generateUniqueShortIds (rand i) 50 len)
        (checkExist bk (generateUniqueShortIds (rand i) 50 len)) = none :=
      pickFree_eq_none _ _ (fun a ha => checkExist_mem_of bk _ a ha (h0 a ha))
    rw [createAttempts_succ, hp]
    refine ih (len + 1) (i + 1) ?_
    intro j hj
    have h1 : (i + 1) + j = i + (j + 1) := by omega
    have h2 : (len + 1) + j = len + (j + 1) := by omega
    rw [h1, h2]
    exact h (j + 1) (by omega)

theorem createAttempts_len_mono (rand : Nat → Nat → Fin 62) (bk : List (String × String)) :
    ∀ (fuel len i : Nat), len ≤ (createAttempts rand bk len i fuel).len := by
  intro fuel
  induction fuel with
  | zero => intro len i; exact Nat.le_refl _
  | succ f ih =>
    intro len i
    rw [createAttempts_succ]
    cases hp : pickFree (generateUniqueShortIds (rand i) 50 len)
        (checkExist bk (generateUniqueShortIds (rand i) 50 len)) with
    | some id => exact Nat.le_refl _
    | none => exact Nat.le_trans (Nat.le_succ len) (ih (len + 1) (i + 1))

theorem createAttempts_found_length (rand : Nat → Nat → Fin 62) (bk : List (String × String)) :
    ∀ (fuel len i : Nat) (id : String),
    (createAttempts rand bk len i fuel).found = some id → len ≤ id.length := by
  intro fuel
  induction fuel with
  | zero => intro len i id h; cases h
  | succ f ih =>
    intro len i id h
    rw [createAttempts_succ] at h
    cases hp : pickFree (generateUniqueShortIds (rand i) 50 len)
        (checkExist bk (generateUniqueShortIds (rand i) 50 len)) with
    | some x =>
      rw [hp] at h
      injection h with h
      subst h
      obtain ⟨hmem, _, _⟩ := pickFree_sound _ _ x hp
      exact Nat.le_of_eq (generateUniqueShortIds_mem_length (rand i) 50 len x hmem).symm
    | none =>
      rw [hp] at h
      exact Nat.le_trans (Nat.le_succ len) (ih (len + 1) (i + 1) id h)

theorem createAttempts_found_fresh (rand : Nat → Nat → Fin 62) (bk : List (String × String)) :
    ∀ (fuel len i : Nat) (id : String),
    (createAttempts rand bk len i fuel).found = some id → assocGet bk id = none := by
  intro fuel
  induction fuel with
  | zero => intro len i id h; cases h
  | succ f ih =>
    intro len i id h
    rw [createAttempts_succ] at h
    cases hp : pickFree (generateUniqueShortIds (rand i) 50 len)
        (checkExist bk (generateUniqueShortIds (rand i) 50 len)) with
    | some x =>
      rw [hp] at h
      injection h with h
      subst h
      obtain ⟨hmem, hnot, _⟩ := pickFree_sound _ _ x hp
      exact assocGet_none_of_not_in_checkExist bk _ x hmem hnot
    | none =>
      rw [hp] at h
      exact ih (len + 1) (i + 1) id h

theorem createAttempts_trace_events (rand : Nat → Nat → Fin 62) (bk : List (String × String)) :
    ∀ (fuel len i : Nat) (e : BEvent), e ∈ (createAttempts rand bk len i fuel).trace →
    (∃ l, e = BEvent.checkShortIdsExist l) ∨ ∃ n, e = BEvent.lengthUpdated n := by
  intro fuel
  induction fuel with
  | zero => intro len i e h; cases h
  | succ f ih =>
    intro len i e h
    rw [createAttempts_succ] at h
    cases hp : pickFree (generateUniqueShortIds (rand i) 50 len)
        (checkExist bk (generateUniqueShortIds (rand i) 50 len)) with
    | some x =>
      rw [hp] at h
      rcases List.mem_singleton.mp h with rfl
      exact Or.inl ⟨_, rfl⟩
    | none =>
      rw [hp] at h
      rcases List.mem_cons.mp h with rfl | h
      · exact Or.inl ⟨_, rfl⟩
      · rcases List.mem_cons.mp h with rfl | h
        · exact Or.inr ⟨_, rfl⟩
        · exact ih (len + 1) (i + 1) e h

theorem createShortLink_result_ok (rand : Nat → Nat → Fin 62) (L : Nat)
    (url : String) (st : MState) (id : String)
    (h : (createShortLink rand L url st).result = Except.ok id) :
    (createAttempts rand st.backend L 0 3).found = some id := by
  rw [createShortLink_eq] at h
  cases hfound : (createAttempts rand st.backend L 0 3).found with
  | none => rw [hfound] at h; cases h
  | some x =>
    rw [hfound] at h
    injection h with h
    rw [h]

theorem createShortLink_state_ok (rand : Nat → Nat → Fin 62) (L : Nat)
    (url : String) (st : MState) (id : String)
    (h : (createShortLink rand L url st).result = Except.ok id) :
    (createShortLink rand L url st).state = backendCreate st id url := by
  have hfound := createShortLink_result_ok rand L url st id h
  rw [createShortLink_eq, hfound]

theorem createShortLink_trace_mem (rand : Nat → Nat → Fin 62) (L : Nat)
    (url : String) (st : MState) (e : BEvent)
    (he : e ∈ (createAttempts rand st.backend L 0 3).trace) :
    e ∈ (createShortLink rand L url st).trace := by
  rw [createShortLink_eq]
  cases hfound : (createAttempts rand st.backend L 0 3).found with
  | none => exact he
  | some x => exact List.mem_append_left _ he

theorem createShortLink_finalLen (rand : Nat → Nat → Fin 62) (L : Nat)
    (url : String) (st : MState) :
    (createShortLink rand L url st).finalLen = (createAttempts rand st.backend L 0 3).len := by
  rw [createShortLink_eq]
  cases hfound : (createAttempts rand st.backend L 0 3).found with
  | none => rfl
  | some x => rfl

theorem cacheScan_falsy (id : String) :
    ∀ (caches : List (List (String × String))) (idx : Nat) (acc : Option String),
    truthyStr acc = false →
    (∀ c ∈ caches, truthyStr (assocGet c id) = false) →
    truthyStr (cacheScan caches idx id acc).acc = false := by
  intro caches
  induction caches with
  | nil => intro idx acc hacc _; exact hacc
  | cons c rest ih =>
    intro idx acc hacc h
    rw [cacheScan_cons, if_neg (by rw [hacc]; exact Bool.false_ne_true)]
    exact ih (idx + 1) (assocGet c id) (h c (List.mem_cons_self c rest))
      (fun c' hc' => h c' (List.mem_cons_of_mem c hc'))

theorem getTargetUrl_result_of_falsy (st : MState) (id : String)
    (h : ∀ c ∈ st.caches, truthyStr (assocGet c id) = false) :
    (getTargetUrl st id).result = assocGet st.backend id := by
  have hscan : truthyStr (cacheScan st.caches 0 id none).acc = false :=
    cacheScan_falsy id st.caches 0 none rfl h
  rw [getTargetUrl_eq]
  simp only [hscan, Bool.false_eq_true, if_false]
  split
  · rfl
  · rfl

/-- Claim C3: if on every one of the 3 attempts every generated
candidate (batch of 50) already exists according to the backend's
`checkShortIdsExist`, then `createShortLink` fails with the exhaustion
error, the backend's `createShortLink` is never invoked, and the store
is unchanged. -/
theorem createShortLink_exhaustion (rand : Nat → Nat → Fin 62) (L : Nat)
    (url : String) (st : MState)
    (h : ∀ i, i < 3 → ∀ id ∈ generateUniqueShortIds (rand i) 50 (L + i),
      (assocGet st.backend id).isSome = true) :
    (createShortLink rand L url st).result = Except.error () ∧
    (createShortLink rand L url st).state = st ∧
    ∀ a b, BEvent.bCreateShortLink a b ∉ (createShortLink rand L url st).trace := by
  have hnone : (createAttempts rand st.backend L 0 3).found = none := by
    refine createAttempts_none rand st.backend 3 L 0 ?_
    intro j hj
    simpa using h j hj
  rw [createShortLink_eq, hnone]
  refine ⟨rfl, rfl, ?_⟩
  intro a b hmem
  rcases createAttempts_trace_events rand st.backend 3 L 0 _ hmem with ⟨l, hl⟩ | ⟨n, hn⟩
  · cases hl
  · cases hn

/-- Witness for C3: with the saturated store `stSat` (every candidate
the oracle can produce at lengths 1, 2 and 3 already exists), creation
fails. -/
theorem createShortLink_exhaustion_witness :
    (createShortLink randW 1 "https://example.com/test" stSat).result = Except.error () :=
  (createShortLink_exhaustion randW 1 "https://example.com/test" stSat (by decide)).1

/-- Claim C8: the shortIdLength counter never decreases; an attempt in
which every generated candidate of the current length `L` exists
increments the length by exactly 1, fires `onShortIdLengthUpdated` with
`L + 1` (strictly greater than `L`), and retries at the new length, so
a shortId returned after the escalation has length at least `L + 1`. -/
theorem createShortLink_escalation (rand : Nat → Nat → Fin 62) (L : Nat)
    (url : String) (st : MState)
    (h : ∀ id ∈ generateUniqueShortIds (rand 0) 50 L,
      (assocGet st.backend id).isSome = true) :
    BEvent.lengthUpdated (L + 1) ∈ (createShortLink rand L url st).trace ∧
    L < L + 1 ∧
    L ≤ (createShortLink rand L url st).finalLen ∧
    ∀ id, (createShortLink rand L url st).result = Except.ok id → L + 1 ≤ id.length := by
  have hp : pickFree (generateUniqueShortIds (rand 0) 50 L)
      (checkExist st.backend (generateUniqueShortIds (rand 0) 50 L)) = none :=
    pickFree_eq_none _ _ (fun a ha => checkExist_mem_of st.backend _ a ha (h a ha))
  have ha3 : createAttempts rand st.backend L 0 3 =
      ⟨(createAttempts rand st.backend (L + 1) 1 2).found,
       (createAttempts rand st.backend (L + 1) 1 2).len,
       BEvent.checkShortIdsExist (generateUniqueShortIds (rand 0) 50 L) ::
         BEvent.lengthUpdated (L + 1) ::
           (createAttempts rand st.backend (L + 1) 1 2).trace⟩ := by
    rw [show (3 : Nat) = 2 + 1 from rfl, createAttempts_succ, hp]
  refine ⟨?_, Nat.lt_succ_self L, ?_, ?_⟩
  · refine createShortLink_trace_mem rand L url st _ ?_
    rw [ha3]
    exact List.mem_cons_of_mem _ (List.mem_cons_self _ _)
  · rw [createShortLink_finalLen, ha3]
    exact Nat.le_trans (Nat.le_succ L) (createAttempts_len_mono rand st.backend 2 (L + 1) 1)
  · intro id hok
    have hfound := createShortLink_result_ok rand L url st id hok
    rw [ha3] at hfound
    exact createAttempts_found_length rand st.backend 2 (L + 1) 1 id hfound

/-- Witness for C8: with every length-1 candidate taken, the callback
fires with the new length 2. -/
theorem createShortLink_escalation_witness :
    BEvent.lengthUpdated 2 ∈ (createShortLink randW 1 "u" stSat1).trace :=
  (createShortLink_escalation randW 1 "u" stSat1 (by decide)).1

/-- Claim C5: after a successful `createShortLink(targetUrl)` returning
`id`, an immediate `getTargetUrl(id)` on the resulting store returns
`targetUrl` (assuming no cache tier already held a stale truthy value
for the freshly generated id). -/
theorem createShortLink_getTargetUrl_roundTrip (rand : Nat → Nat → Fin 62)
    (L : Nat) (url : String) (st : MState) (id : String)
    (h1 : (createShortLink rand L url st).result = Except.ok id)
    (h2 : ∀ c ∈ st.caches, truthyStr (assocGet c id) = false) :
    (getTargetUrl (createShortLink rand L url st).state id).result = some url := by
  have hfound := createShortLink_result_ok rand L url st id h1
  have hfresh := createAttempts_found_fresh rand st.backend 3 L 0 id hfound
  rw [createShortLink_state_ok rand L url st id h1]
  rw [getTargetUrl_result_of_falsy (backendCreate st id url) id h2]
  exact assocGet_append_fresh st.backend id url hfresh

/-- Witness for C5: creating against the empty store yields `"000"`,
and reading it back returns the created URL. -/
theorem createShortLink_getTargetUrl_roundTrip_witness :
    (getTargetUrl (createShortLink randD 3 "https://example.com/a" stEmpty1).state "000").result
      = some "https://example.com/a" :=
  createShortLink_getTargetUrl_roundTrip randD 3 "https://example.com/a" stEmpty1 "000"
    rfl (by decide)

/-- Claim C1 (code bug): after a successful
`createShortLink(targetUrl)` the mapping is persisted in the backend,
but no configured cache tier receives the entry — the creation path of
manager.ts (lines 88-115) never touches the caches, contradicting the
write-through expected by the spec and by the repository's own test
"should write to all caches when creating a short link". Evaluated at
the test's scenario: empty backend, one configured cache. -/
theorem createShortLink_no_cache_write :
    (createShortLink randD 3 "https://example.com/test" stEmpty1).result = Except.ok "000" ∧
    (createShortLink randD 3 "https://example.com/test" stEmpty1).state.backend =
      [("000", "https://example.com/test")] ∧
    (createShortLink randD 3 "https://example.com/test" stEmpty1).state.caches = [[]] ∧
    assocGet (((createShortLink randD 3
      "https://example.com/test" stEmpty1).state.caches).getD 0 []) "000" = none :=
  ⟨rfl, rfl, rfl, rfl⟩

/-- Claim C2 (code bug): the reference manager accepts no
`shouldUpdateLastAccessOnGet` option (`IManagerProps`, manager.ts lines
39-49, has no `options` field): `getTargetUrl` invokes the backend's
`updateShortLinkLastAccessTime` on every successful (truthy) lookup
unconditionally, so the disabled-option behaviour demanded by the spec
and by the repository's options tests does not exist. -/
theorem getTargetUrl_always_updates :
    (getTargetUrl stC2 "abc").result = some "https://example.com/test" ∧
    BEvent.bUpdateLastAccess "abc" ∈ (getTargetUrl stC2 "abc").trace ∧
    ∀ st id, truthyStr (getTargetUrl st id).result = true →
      BEvent.bUpdateLastAccess id ∈ (getTargetUrl st id).trace := by
  refine ⟨rfl, by decide, ?_⟩
  intro st id h
  rw [getTargetUrl_eq] at h ⊢
  by_cases hc : truthyStr (if truthyStr (cacheScan st.caches 0 id none).acc
      then (cacheScan st.caches 0 id none).acc else assocGet st.backend id) = true
  · rw [if_pos hc]
    exact List.mem_append_right _ (List.mem_cons_self _ _)
  · rw [if_neg hc] at h
    exact absurd h hc

theorem getTargetUrl_eq2 (st : MState) (id : String) :
    getTargetUrl st id =
      if truthyStr (getResolved st id) then
        ⟨getResolved st id,
         ⟨st.backend, st.caches.map (fun c => assocSet c id ((getResolved st id).getD ""))⟩,
         getTraceA st id ++ BEvent.bUpdateLastAccess id ::
           (List.range st.caches.length).map
             (fun i => BEvent.cacheSet i id ((getResolved st id).getD ""))⟩
      else ⟨getResolved st id, st, getTraceA st id⟩ := by
  rw [getTargetUrl_eq, getResolved, getTraceA]

theorem cacheScan_truthy (id : String) :
    ∀ (caches : List (List (String × String))) (idx : Nat) (acc : Option String),
    truthyStr acc = true →
    (cacheScan caches idx id acc).acc = acc ∧
    ∀ e ∈ (cacheScan caches idx id acc).trace, ∃ i, e = BEvent.cacheInit i := by
  intro caches
  induction caches with
  | nil => intro idx acc _; exact ⟨rfl, by intro e he; cases he⟩
  | cons c rest ih =>
    intro idx acc hacc
    rw [cacheScan_cons, if_pos hacc]
    obtain ⟨ha, ht⟩ := ih (idx + 1) acc hacc
    refine ⟨ha, ?_⟩
    intro e he
    rcases List.mem_cons.mp he with rfl | he
    · exact ⟨idx, rfl⟩
    · exact ht e he

theorem cacheScan_trace_events (id : String) :
    ∀ (caches : List (List (String × String))) (idx : Nat) (acc : Option String),
    ∀ e ∈ (cacheScan caches idx id acc).trace,
    (∃ i, e = BEvent.cacheInit i) ∨ ∃ i a, e = BEvent.cacheGet i a := by
  intro caches
  induction caches with
  | nil => intro idx acc e he; cases he
  | cons c rest ih =>
    intro idx acc e he
    rw [cacheScan_cons] at he
    by_cases hacc : truthyStr acc = true
    · rw [if_pos hacc] at he
      rcases List.mem_cons.mp he with rfl | he
      · exact Or.inl ⟨idx, rfl⟩
      · exact ih (idx + 1) acc e he
    · rw [if_neg hacc] at he
      rcases List.mem_cons.mp he with rfl | he
      · exact Or.inl ⟨idx, rfl⟩
      · rcases List.mem_cons.mp he with rfl | he
        · exact Or.inr ⟨idx, id, rfl⟩
        · exact ih (idx + 1) (assocGet c id) e he

theorem cacheScan_acc_none (id : String) :
    ∀ (caches : List (List (String × String))) (idx : Nat),
    (∀ c ∈ caches, assocGet c id = none) →
    (cacheScan caches idx id none).acc = none := by
  intro caches
  induction caches with
  | nil => intro idx _; rfl
  | cons c rest ih =>
    intro idx h
    rw [cacheScan_cons, if_neg (by exact Bool.false_ne_true)]
    rw [h c (List.mem_cons_self c rest)]
    exact ih (idx + 1) (fun c' hc' => h c' (List.mem_cons_of_mem c hc'))

theorem cacheScan_falsy_gets (id : String) :
    ∀ (caches : List (List (String × String))) (idx : Nat) (acc : Option String),
    truthyStr acc = false →
    (∀ c ∈ caches, truthyStr (assocGet c id) = false) →
    ∀ j, j < caches.length →
    BEvent.cacheGet (idx + j) id ∈ (cacheScan caches idx id acc).trace := by
  intro caches
  induction caches with
  | nil => intro idx acc _ _ j hj; cases hj
  | cons c rest ih =>
    intro idx acc hacc h j hj
    rw [cacheScan_cons, if_neg (by rw [hacc]; exact Bool.false_ne_true)]
    cases j with
    | zero =>
      rw [Nat.add_zero]
      exact List.mem_cons_of_mem _ (List.mem_cons_self _ _)
    | succ j' =>
      have hmem := ih (idx + 1) (assocGet c id) (h c (List.mem_cons_self c rest))
        (fun c' hc' => h c' (List.mem_cons_of_mem c hc')) j'
        (by simpa using Nat.lt_of_succ_lt_succ hj)
      have harith : (idx + 1) + j' = idx + (j' + 1) := by omega
      rw [harith] at hmem
      exact List.mem_cons_of_mem _ (List.mem_cons_of_mem _ hmem)

theorem cacheScan_hit (id : String) (c : List (String × String))
    (post : List (List (String × String))) :
    ∀ (pre : List (List (String × String))) (idx : Nat) (acc : Option String),
    truthyStr acc = false →
    (∀ c' ∈ pre, truthyStr (assocGet c' id) = false) →
    truthyStr (assocGet c id) = true →
    (cacheScan (pre ++ c :: post) idx id acc).acc = assocGet c id ∧
    ∀ k, idx + pre.length < k →
      BEvent.cacheGet k id ∉ (cacheScan (pre ++ c :: post) idx id acc).trace := by
  intro pre
  induction pre with
  | nil =>
    intro idx acc hacc _ hc
    rw [List.nil_append, cacheScan_cons, if_neg (by rw [hacc]; exact Bool.false_ne_true)]
    obtain ⟨ha, ht⟩ := cacheScan_truthy id post (idx + 1) (assocGet c id) hc
    refine ⟨ha, ?_⟩
    intro k hk hmem
    rcases List.mem_cons.mp hmem with heq | hmem
    · cases heq
    · rcases List.mem_cons.mp hmem with heq | hmem
      · injection heq with h1 h2
        omega
      · obtain ⟨i, hi⟩ := ht _ hmem
        cases hi
  | cons c' pre' ih =>
    intro idx acc hacc hpre hc
    rw [List.cons_append, cacheScan_cons, if_neg (by rw [hacc]; exact Bool.false_ne_true)]
    obtain ⟨ha, ht⟩ := ih (idx + 1) (assocGet c' id)
      (hpre c' (List.mem_cons_self c' pre'))
      (fun x hx => hpre x (List.mem_cons_of_mem c' hx)) hc
    refine ⟨ha, ?_⟩
    intro k hk hmem
    have hlen : (idx + 1) + pre'.length = idx + (c' :: pre').length := by
      simp [List.length_cons]
      omega
    rcases List.mem_cons.mp hmem with heq | hmem
    · cases heq
    · rcases List.mem_cons.mp hmem with heq | hmem
      · injection heq with h1 h2
        simp [List.length_cons] at hk
        omega
      · exact ht k (by rw [hlen]; exact hk) hmem

theorem mem_getTraceA_trace (st : MState) (id : String) (e : BEvent)
    (he : e ∈ getTraceA st id) : e ∈ (getTargetUrl st id).trace := by
  rw [getTargetUrl_eq2]
  by_cases hc : truthyStr (getResolved st id) = true
  · rw [if_pos hc]
    exact List.mem_append_left _ he
  · rw [if_neg hc]
    exact he

/-- Counterexample to claim C4 as stated: in `stCex` the first tier
holds the non-absent value `""` for `"x"`, yet `getTargetUrl` does not
return that first non-absent value — it returns the second tier's
`"u"` — and the second tier's get operation is invoked. -/
theorem getTargetUrl_first_nonabsent_cex :
    assocGet (stCex.caches.getD 0 []) "x" = some "" ∧
    (getTargetUrl stCex "x").result = some "u" ∧
    (getTargetUrl stCex "x").result ≠ some "" ∧
    BEvent.cacheGet 1 "x" ∈ (getTargetUrl stCex "x").trace :=
  ⟨rfl, rfl, by decide, by decide⟩

/-- Claim C4 (amended): if some cache tier holds a truthy (non-empty,
non-absent) value for `shortId`, `getTargetUrl` returns the value of
the first such tier, the get operation of every tier after that one is
not invoked, and the backend's read is not invoked.  (As originally
stated — with "non-absent" in place of "truthy" — the claim fails,
because an empty-string value is skipped; see the counterexample.) -/
theorem getTargetUrl_first_truthy_hit (st : MState) (id : String)
    (pre : List (List (String × String))) (c : List (String × String))
    (post : List (List (String × String)))
    (hsplit : st.caches = pre ++ c :: post)
    (hpre : ∀ c' ∈ pre, truthyStr (assocGet c' id) = false)
    (hc : truthyStr (assocGet c id) = true) :
    (getTargetUrl st id).result = assocGet c id ∧
    (∀ k, pre.length < k → BEvent.cacheGet k id ∉ (getTargetUrl st id).trace) ∧
    ∀ a, BEvent.bGetTargetUrl a ∉ (getTargetUrl st id).trace := by
  obtain ⟨hacc0, hnoget0⟩ := cacheScan_hit id c post pre 0 none rfl hpre hc
  have hacc : (cacheScan st.caches 0 id none).acc = assocGet c id := by
    rw [hsplit]; exact hacc0
  have hnoget : ∀ k, pre.length < k →
      BEvent.cacheGet k id ∉ (cacheScan st.caches 0 id none).trace := by
    intro k hk
    rw [hsplit]
    exact hnoget0 k (by simpa using hk)
  have htr : truthyStr (cacheScan st.caches 0 id none).acc = true := by
    rw [hacc]; exact hc
  have hres : getResolved st id = assocGet c id := by
    rw [getResolved, if_pos htr, hacc]
  have htrA : getTraceA st id = (cacheScan st.caches 0 id none).trace := by
    rw [getTraceA, if_pos htr]
  have houter : truthyStr (getResolved st id) = true := by
    rw [hres]; exact hc
  rw [getTargetUrl_eq2, if_pos houter]
  refine ⟨hres, ?_, ?_⟩
  · intro k hk hmem
    rcases List.mem_append.mp hmem with hmem | hmem
    · rw [htrA] at hmem
      exact hnoget k hk hmem
    · rcases List.mem_cons.mp hmem with heq | hmem
      · cases heq
      · obtain ⟨i, _, heq⟩ := List.mem_map.mp hmem
        cases heq
  · intro a hmem
    rcases List.mem_append.mp hmem with hmem | hmem
    · rw [htrA] at hmem
      rcases cacheScan_trace_events id st.caches 0 none _ hmem with ⟨i, hi⟩ | ⟨i, x, hi⟩
      · cases hi
      · cases hi
    · rcases List.mem_cons.mp hmem with heq | hmem
      · cases heq
      · obtain ⟨i, _, heq⟩ := List.mem_map.mp hmem
        cases heq

/-- Witness for the amended C4: with the first tier of `stW4` holding
`"u"`, the lookup returns it. -/
theorem getTargetUrl_first_truthy_hit_witness :
    (getTargetUrl stW4 "x").result = some "u" :=
  (getTargetUrl_first_truthy_hit stW4 "x" [] [("x", "u")] [[("x", "w")]] rfl
    (by intro c' hc'; cases hc') (by decide)).1

/-- Claim C6: for a shortId absent from all cache tiers and from the
backend, `getTargetUrl` returns absence as a normal value, leaves the
store (in particular every cache tier) unchanged, and writes no cache
entry; after the link is created in the backend, the next lookup
returns the correct target URL. -/
theorem getTargetUrl_no_negative_caching (st : MState) (id : String)
    (h1 : ∀ c ∈ st.caches, assocGet c id = none)
    (h2 : assocGet st.backend id = none) :
    (getTargetUrl st id).result = none ∧
    (getTargetUrl st id).state = st ∧
    (∀ i a b, BEvent.cacheSet i a b ∉ (getTargetUrl st id).trace) ∧
    ∀ url, (getTargetUrl (backendCreate st id url) id).result = some url := by
  have hfalsy : ∀ c ∈ st.caches, truthyStr (assocGet c id) = false := by
    intro c hc; rw [h1 c hc]; rfl
  have hscanN : (cacheScan st.caches 0 id none).acc = none :=
    cacheScan_acc_none id st.caches 0 h1
  have hng : ¬ (truthyStr (cacheScan st.caches 0 id none).acc = true) := by
    rw [hscanN]; exact Bool.false_ne_true
  have hres : getResolved st id = none := by
    rw [getResolved, if_neg hng, h2]
  have htrA : getTraceA st id =
      (cacheScan st.caches 0 id none).trace ++ [BEvent.bGetTargetUrl id] := by
    rw [getTraceA, if_neg hng]
  have houter : ¬ (truthyStr (getResolved st id) = true) := by
    rw [hres]; exact Bool.false_ne_true
  rw [getTargetUrl_eq2, if_neg houter]
  refine ⟨hres, rfl, ?_, ?_⟩
  · intro i a b hmem
    rw [htrA] at hmem
    rcases List.mem_append.mp hmem with hmem | hmem
    · rcases cacheScan_trace_events id st.caches 0 none _ hmem with ⟨j, hj⟩ | ⟨j, x, hj⟩
      · cases hj
      · cases hj
    · rcases List.mem_singleton.mp hmem with heq
      cases heq
  · intro url
    have hfalsy' : ∀ c ∈ (backendCreate st id url).caches,
        truthyStr (assocGet c id) = false := hfalsy
    rw [getTargetUrl_result_of_falsy (backendCreate st id url) id hfalsy']
    exact assocGet_append_fresh st.backend id url h2

/-- Witness for C6: a lookup of an unknown id against the empty store
with one cache tier returns absence. -/
theorem getTargetUrl_no_negative_caching_witness :
    (getTargetUrl stEmpty1 "zz").result = none :=
  (getTargetUrl_no_negative_caching stEmpty1 "zz" (by decide) rfl).1

/-- Claim C10: resolved values are tested for truthiness, not presence:
an empty-string value held by a cache tier does not stop consultation
of later tiers or of the backend, and when the stored target URL is the
empty string the post-lookup steps treat the result as a miss — no
last-access-time update is performed and no cache entry is written,
while the empty string is still returned. -/
theorem getTargetUrl_empty_string_semantics (st : MState) (id : String)
    (h : ∀ c ∈ st.caches, assocGet c id = none ∨ assocGet c id = some "") :
    (∀ i, i < st.caches.length → BEvent.cacheGet i id ∈ (getTargetUrl st id).trace) ∧
    BEvent.bGetTargetUrl id ∈ (getTargetUrl st id).trace ∧
    (assocGet st.backend id = some "" →
      (getTargetUrl st id).result = some "" ∧
      BEvent.bUpdateLastAccess id ∉ (getTargetUrl st id).trace ∧
      (∀ i a b, BEvent.cacheSet i a b ∉ (getTargetUrl st id).trace) ∧
      (getTargetUrl st id).state = st) := by
  have hfalsy : ∀ c ∈ st.caches, truthyStr (assocGet c id) = false := by
    intro c hc
    rcases h c hc with h' | h' <;> rw [h'] <;> rfl
  have hscan : truthyStr (cacheScan st.caches 0 id none).acc = false :=
    cacheScan_falsy id st.caches 0 none rfl hfalsy
  have hng : ¬ (truthyStr (cacheScan st.caches 0 id none).acc = true) := by
    rw [hscan]; exact Bool.false_ne_true
  have htrA : getTraceA st id =
      (cacheScan st.caches 0 id none).trace ++ [BEvent.bGetTargetUrl id] := by
    rw [getTraceA, if_neg hng]
  refine ⟨?_, ?_, ?_⟩
  · intro i hi
    refine mem_getTraceA_trace st id _ ?_
    rw [htrA]
    refine List.mem_append_left _ ?_
    have := cacheScan_falsy_gets id st.caches 0 none rfl hfalsy i hi
    simpa using this
  · refine mem_getTraceA_trace st id _ ?_
    rw [htrA]
    exact List.mem_append_right _ (List.mem_singleton_self _)
  · intro hbk
    have hres : getResolved st id = some "" := by
      rw [getResolved, if_neg hng, hbk]
    have houter : ¬ (truthyStr (getResolved st id) = true) := by
      rw [hres]; exact Bool.false_ne_true
    rw [getTargetUrl_eq2, if_neg houter]
    refine ⟨hres, ?_, ?_, rfl⟩
    · intro hmem
      rw [htrA] at hmem
      rcases List.mem_append.mp hmem with hmem | hmem
      · rcases cacheScan_trace_events id st.caches 0 none _ hmem with ⟨j, hj⟩ | ⟨j, x, hj⟩
        · cases hj
        · cases hj
      · rcases List.mem_singleton.mp hmem with heq
        cases heq
    · intro i a b hmem
      rw [htrA] at hmem
      rcases List.mem_append.mp hmem with hmem | hmem
      · rcases cacheScan_trace_events id st.caches 0 none _ hmem with ⟨j, hj⟩ | ⟨j, x, hj⟩
        · cases hj
        · cases hj
      · rcases List.mem_singleton.mp hmem with heq
        cases heq

/-- Witness for C10: with the single tier and the backend both storing
`""` for `"e"`, the backend read is still consulted. -/
theorem getTargetUrl_empty_string_semantics_witness :
    BEvent.bGetTargetUrl "e" ∈ (getTargetUrl stC10 "e").trace :=
  (getTargetUrl_empty_string_semantics stC10 "e" (by decide)).2.1

/-- Claim C9: the manager's `updateShortLinkLastAccessTime` ignores its
`time` argument — any two values of the parameter produce the same
effect and result, because the backend is always invoked with the
shortId alone. -/
theorem updateShortLinkLastAccessTime_ignores_time :
    ∀ (shortId : String) (t1 t2 : Nat) (st : MState),
    updateShortLinkLastAccessTime shortId t1 st = updateShortLinkLastAccessTime shortId t2 st ∧
    (updateShortLinkLastAccessTime shortId t1 st).2 = [BEvent.bUpdateLastAccess shortId] :=
  fun _ _ _ _ => ⟨rfl, rfl⟩
